import Mathlib

/-!
Verification of the JellyfinDownloader client against its specification.

The Python sources are shallowly embedded: dictionaries with optional
fields become structures of `Option`-typed fields, Python truthiness is
modelled explicitly where the code relies on it, and the float formula in
`should_skip_transcode` is embedded over `ℚ` with the literal `1.05`
rendered as the exact rational `21/20`.
-/

namespace Jellydown

/-- A media-source descriptor (`MediaSources` list element).
`size` mirrors the dictionary entry `Size`; `id` mirrors `Id`.
A `none` field models an absent key. -/
structure MediaSource where
  id : Option String := none
  size : Option Nat := none
deriving DecidableEq, Repr

/-- A catalog item record as consumed by the client.  Each field models
one dictionary key read by the code (`RunTimeTicks`, `MediaSources`,
`SeriesName`, `ParentIndexNumber`, `IndexNumber`, `Name`).  An element of
`mediaSources` that is `none` models a falsy list entry (Python `None` or
an empty dict), which `should_skip_transcode` guards against with
`not ms[0]`. -/
structure Item where
  runTimeTicks : Option Nat := none
  mediaSources : Option (List (Option MediaSource)) := none
  seriesName : Option String := none
  parentIndexNumber : Option Nat := none
  indexNumber : Option Nat := none
  name : Option String := none
deriving DecidableEq, Repr

/-- `download.py`, `should_skip_transcode(item, bitrate)`.

Mirrors the Python code line by line:
* `if bitrate == 0: return True`;
* `ms = item.get("MediaSources") or []`;
* `if not duration_ticks or not ms or not isinstance(ms, list) or not ms[0]: return False`
  (Python truthiness: an absent key and the value `0` are both falsy, an
  empty list and a falsy first element are rejected; every embedded value
  is a list so the `isinstance` test always passes);
* `original_size = ms[0].get("Size"); if not original_size: return False`;
* finally `original_size <= (bitrate / 8) * (duration_ticks / 10_000_000) * 1.05`,
  embedded exactly over `ℚ` with `1.05 = 21/20`. -/
def should_skip_transcode (item : Item) (bitrate : Nat) : Bool :=
  if bitrate = 0 then true
  else
    let ms := item.mediaSources.getD []
    match item.runTimeTicks, ms with
    | some t, some src :: _ =>
      if t = 0 then false
      else
        match src.size with
        | some s =>
          if s = 0 then false
          else
            decide ((s : ℚ) ≤ ((bitrate : ℚ) / 8) * ((t : ℚ) / 10000000) * (21 / 20))
        | none => false
    | _, _ => false

/-- The characters removed by `sanitize_filename`, from the regular
expression in `utils.py`: the literal class plus ASCII control characters
(the `\x00-\x1f` range is folded into `isStripped` below). -/
def stripChars : List Char := ['<', '>', ':', '"', '/', '\\', '|', '?', '*']

/-- A character deleted by the first substitution of `sanitize_filename`:
a member of the literal class or an ASCII control character. -/
def isStripped (c : Char) : Bool := c ∈ stripChars || c.toNat ≤ 0x1f

/-- The whitespace class of Python's `re` module (and `str.strip`) on
text strings: ASCII whitespace plus the Unicode space and separator
characters. -/
def isPySpace (c : Char) : Bool :=
  c.toNat = 0x20 || (0x09 ≤ c.toNat && c.toNat ≤ 0x0d) ||
  (0x1c ≤ c.toNat && c.toNat ≤ 0x1f) ||
  c.toNat = 0x85 || c.toNat = 0xa0 || c.toNat = 0x1680 ||
  (0x2000 ≤ c.toNat && c.toNat ≤ 0x200a) ||
  c.toNat = 0x2028 || c.toNat = 0x2029 ||
  c.toNat = 0x202f || c.toNat = 0x205f || c.toNat = 0x3000

/-- `re.sub(r"\s+", " ", s)`: every maximal run of whitespace becomes a
single space. -/
def collapseWS : List Char → List Char
  | [] => []
  | [c] => [if isPySpace c then ' ' else c]
  | c :: d :: t =>
    if isPySpace c && isPySpace d then collapseWS (d :: t)
    else (if isPySpace c then ' ' else c) :: collapseWS (d :: t)

/-- Drop leading characters satisfying `p` (the left half of `.strip()`). -/
def lstripWith (p : Char → Bool) (l : List Char) : List Char := l.dropWhile p

/-- Drop trailing characters satisfying `p` (`.rstrip(...)` and the right
half of `.strip()`). -/
def rstripWith (p : Char → Bool) (l : List Char) : List Char :=
  (l.reverse.dropWhile p).reverse

/-- The class of `.rstrip(" .")` in `sanitize_filename`. -/
def isSpaceDot (c : Char) : Bool := c = ' ' || c = '.'

/-- `utils.py`, `sanitize_filename`, at the level of character lists:
delete the invalid characters, collapse whitespace runs, strip both ends,
then strip trailing spaces and dots. -/
def sanitizeChars (l : List Char) : List Char :=
  rstripWith isSpaceDot
    (rstripWith isPySpace
      (lstripWith isPySpace
        (collapseWS (l.filter (fun c => !isStripped c)))))

/-- `utils.py`, `sanitize_filename(s)`. -/
def sanitize_filename (s : String) : String := String.mk (sanitizeChars s.data)

/-- Two adjacent characters are not both whitespace: the relation whose
`List.Chain'` closure says every whitespace run has been collapsed. -/
def wsRel (a b : Char) : Prop := ¬(isPySpace a = true ∧ isPySpace b = true)

instance (a b : Char) : Decidable (wsRel a b) :=
  inferInstanceAs (Decidable ¬(isPySpace a = true ∧ isPySpace b = true))

/-- The decimal digit character for `d < 10`. -/
def digitChar (d : Nat) : Char := Char.ofNat (48 + d)

/-- Decimal numeral writer, fuelled so that it reduces definitionally;
`fuel = n + 1` always suffices since the argument shrinks by a factor of
ten each step. -/
def natCharsAux : Nat → Nat → List Char
  | 0, _ => []
  | fuel + 1, n =>
    if n < 10 then [digitChar n]
    else natCharsAux fuel (n / 10) ++ [digitChar (n % 10)]

/-- The decimal numeral of `n`, most significant digit first, as Python's
integer formatting prints it. -/
def natChars (n : Nat) : List Char := natCharsAux (n + 1) n

/-- `f"{n:02d}"` for a natural number: the numeral zero-padded to width
at least 2. -/
def pad2 (n : Nat) : List Char := if n < 10 then '0' :: natChars n else natChars n

/-- String form of `pad2`. -/
def pad2s (n : Nat) : String := String.mk (pad2 n)

/-- `item.get(key) or default`: Python `or` replaces both an absent key
and an empty string by the default. -/
def orDefault (v : Option String) (d : String) : String :=
  match v with
  | some s => if s = "" then d else s
  | none => d

/-- `utils.py`, `episode_filename(item, default_ext)`: format
`"<series> - S<season:02d>E<episode:02d> - <title>"` when both indices are
present integers, else `"<series> - <title>"`, sanitize the base, append
the extension. -/
def episode_filename (item : Item) (ext : String := ".mp4") : String :=
  let series := orDefault item.seriesName "Unknown Series"
  let title := orDefault item.name "Untitled"
  let base :=
    match item.parentIndexNumber, item.indexNumber with
    | some sn, some ep =>
      series ++ " - S" ++ pad2s sn ++ "E" ++ pad2s ep ++ " - " ++ title
    | _, _ => series ++ " - " ++ title
  sanitize_filename base ++ ext

/-- The configuration mapping restricted to the recognized key set; a
`none` field models an absent key. -/
structure Config where
  videoCodec : Option String := none
  audioCodec : Option String := none
  videoBitrate : Option Nat := none
  maxStreamingBitrate : Option Nat := none
  audioBitrate : Option Nat := none
  maxAudioChannels : Option Nat := none
  subtitleMethod : Option String := none
deriving DecidableEq, Repr

/-- UTF-8 bytes of a character; Python percent-escapes value bytes after
UTF-8 encoding. -/
def utf8Bytes (c : Char) : List Nat :=
  let n := c.toNat
  if n < 0x80 then [n]
  else if n < 0x800 then [0xc0 + n / 0x40, 0x80 + n % 0x40]
  else if n < 0x10000 then
    [0xe0 + n / 0x1000, 0x80 + n / 0x40 % 0x40, 0x80 + n % 0x40]
  else
    [0xf0 + n / 0x40000, 0x80 + n / 0x1000 % 0x40, 0x80 + n / 0x40 % 0x40,
      0x80 + n % 0x40]

/-- Uppercase hexadecimal digit character. -/
def hexDigit (n : Nat) : Char :=
  if n < 10 then Char.ofNat (48 + n) else Char.ofNat (55 + n)

/-- The `%XX` escape of one byte. -/
def pctByte (b : Nat) : List Char := ['%', hexDigit (b / 16), hexDigit (b % 16)]

/-- `urllib.parse.quote_plus` on one character: ASCII alphanumerics and
`_.-~` pass through, a space becomes `+`, everything else is
percent-escaped byte by byte. -/
def quotePlusChar (c : Char) : List Char :=
  if c = ' ' then ['+']
  else if c.isAlphanum || c = '_' || c = '.' || c = '-' || c = '~' then [c]
  else ((utf8Bytes c).map pctByte).flatten

/-- `urllib.parse.quote_plus` on a string. -/
def quotePlus (s : String) : String := String.mk ((s.data.map quotePlusChar).flatten)

/-- `urllib.parse.urlencode`: quoted `key=value` pairs joined with `&`. -/
def urlencode (params : List (String × String)) : String :=
  String.intercalate "&"
    (params.map fun kv => quotePlus kv.1 ++ "=" ++ quotePlus kv.2)

/-- Python `.rstrip('/')`. -/
def rstripSlash (s : String) : String :=
  String.mk (rstripWith (fun c => c = '/') s.data)

/-- The query-parameter list assembled by `api.py`, `build_stream_url`:
fixed keys in source order, configuration values defaulted via
`cfg.get(key, default)`, numbers rendered in decimal as `urlencode` does,
and `MediaSourceId` appended only when `media_source_id` is truthy. -/
def stream_params (api_key : String) (cfg : Config)
    (media_source_id : Option String) : List (String × String) :=
  let base := [
    ("api_key", api_key),
    ("container", "mp4"),
    ("VideoCodec", cfg.videoCodec.getD "h264"),
    ("AudioCodec", cfg.audioCodec.getD "aac"),
    ("VideoBitrate", toString (cfg.videoBitrate.getD 4000000)),
    ("MaxStreamingBitrate", toString (cfg.maxStreamingBitrate.getD 4000000)),
    ("AudioBitrate", toString (cfg.audioBitrate.getD 128000)),
    ("MaxAudioChannels", toString (cfg.maxAudioChannels.getD 2)),
    ("SubtitleMethod", cfg.subtitleMethod.getD "Encode"),
    ("allowVideoStreamCopy", "true"),
    ("allowAudioStreamCopy", "true")]
  match media_source_id with
  | some m => if m = "" then base else base ++ [("MediaSourceId", m)]
  | none => base

/-- `api.py`, `build_stream_url(base, api_key, item_id, cfg,
media_source_id)`. -/
def build_stream_url (base api_key item_id : String) (cfg : Config)
    (media_source_id : Option String) : String :=
  rstripSlash base ++ "/Videos/" ++ item_id ++ "/stream.mp4?" ++
    urlencode (stream_params api_key cfg media_source_id)

/-- The built-in defaults of `config.py`, `load_config`. -/
def defaultConfig : Config :=
  { videoCodec := some "h264", audioCodec := some "aac",
    videoBitrate := some 4000000, maxStreamingBitrate := some 4000000,
    audioBitrate := some 128000, maxAudioChannels := some 2,
    subtitleMethod := some "Encode" }

/-- `defaults.update(data)` on the recognized keys: a key present in
`disk` wins, otherwise the value of `base` stays. -/
def overlay (base disk : Config) : Config :=
  { videoCodec := disk.videoCodec.or base.videoCodec,
    audioCodec := disk.audioCodec.or base.audioCodec,
    videoBitrate := disk.videoBitrate.or base.videoBitrate,
    maxStreamingBitrate := disk.maxStreamingBitrate.or base.maxStreamingBitrate,
    audioBitrate := disk.audioBitrate.or base.audioBitrate,
    maxAudioChannels := disk.maxAudioChannels.or base.maxAudioChannels,
    subtitleMethod := disk.subtitleMethod.or base.subtitleMethod }

/-- The on-disk states `load_config` distinguishes: no file
(`CONFIG_FILE.exists()` false), unparsable text (including an empty file —
`json.loads` raises and the `except` swallows it), well-formed content
that is not a dict (`isinstance` fails), or a parsed mapping. -/
inductive DiskState where
  | missing
  | malformed
  | notDict
  | dict (d : Config)
deriving DecidableEq, Repr

/-- `config.py`, `load_config()`: defaults, overlaid with the parsed
mapping when one was read; every failure path falls back to the plain
defaults and raises nothing. -/
def load_config : DiskState → Config
  | .missing => defaultConfig
  | .malformed => defaultConfig
  | .notDict => defaultConfig
  | .dict d => overlay defaultConfig d

/-- `config.py`, `save_config(cfg)`: writes the full mapping, overwriting
the file; `json.dumps` of a flat string/int mapping parses back to the
same mapping, so the resulting on-disk state is the written dict. -/
def save_config (cfg : Config) : DiskState := DiskState.dict cfg

/-- The values successfully read from disk: the parsed mapping when the
file holds one, nothing otherwise. -/
def diskValues : DiskState → Config
  | .dict d => d
  | _ => {}

/-- A (label, opaque value) pair driving the picker. -/
structure PickOption (α : Type) where
  label : String
  value : α
deriving DecidableEq, Repr

/-- One console command fed to `pick`: `q`, `b`, `n`, `p`, a digit string
(1-based index), or anything else. -/
inductive Cmd where
  | q
  | b
  | n
  | p
  | num (k : Nat)
  | other
deriving DecidableEq, Repr

/-- Outcome of one iteration of the `pick` loop: terminate the process,
return the BACK sentinel, return a selected value, or print and loop
again on the given page. -/
inductive StepResult (α : Type) where
  | quit
  | back
  | select (v : α)
  | again (page : Nat)
deriving DecidableEq, Repr

/-- `math.ceil(len(options) / page_size)`. -/
def pagesOf (numOptions pageSize : Nat) : Nat :=
  (numOptions + pageSize - 1) / pageSize

/-- First 0-based index shown on a page (`start = page * page_size`). -/
def pageStart (pageSize page : Nat) : Nat := page * pageSize

/-- One past the last 0-based index shown on a page
(`end = min(len(options), start + page_size)`). -/
def pageEnd (numOptions pageSize page : Nat) : Nat :=
  min numOptions (page * pageSize + pageSize)

/-- `ui.py`, `pick`: one iteration of the command loop.  `q` exits the
process, `b` returns the BACK sentinel, `n`/`p` move one page clamped at
the bounds, a digit string selects the 1-based option when in range
(`0 <= int(cmd) - 1 < len(options)`, on any page), anything else reprompts. -/
def pick_step {α : Type} (options : List (PickOption α)) (pageSize page : Nat) :
    Cmd → StepResult α
  | .q => .quit
  | .b => .back
  | .n =>
    if page + 1 < pagesOf options.length pageSize then .again (page + 1)
    else .again page
  | .p => if page > 0 then .again (page - 1) else .again page
  | .num k =>
    if h : 1 ≤ k ∧ k - 1 < options.length then
      .select (options.get ⟨k - 1, h.2⟩).value
    else .again page
  | .other => .again page

/-- Run a command sequence through the `pick` loop from a page. -/
def pick_run {α : Type} (options : List (PickOption α)) (pageSize : Nat) :
    Nat → List Cmd → StepResult α
  | page, [] => .again page
  | page, c :: rest =>
    match pick_step options pageSize page c with
    | .again page2 => pick_run options pageSize page2 rest
    | r => r

/-- Numeric value of an all-digit string, as Python `int` parses it. -/
def digitsToNat (l : List Char) : Nat :=
  l.foldl (fun a c => a * 10 + (c.toNat - 48)) 0

/-- `ui.py`, `prompt_int(prompt, default, min_value, max_value)`: strip
the raw line; blank gives the default, a non-digit string gives the
default, otherwise clamp the parsed value into `[min_value, max_value]`. -/
def prompt_int (raw : String) (default minValue maxValue : Nat) : Nat :=
  let t := String.mk (rstripWith isPySpace (lstripWith isPySpace raw.data))
  if t = "" then default
  else if !(t.data.all Char.isDigit) then default
  else max minValue (min maxValue (digitsToNat t.data))

/-- `ui.py`, `settings_menu`, branch `choice == '3'`: read a video
bitrate with `prompt_int("Video Bitrate: ", default=4000000, min_value=0,
max_value=100000000)` and copy it into `MaxStreamingBitrate`. -/
def settings_edit_video_bitrate (cfg : Config) (raw : String) : Config :=
  let v := prompt_int raw 4000000 0 100000000
  { cfg with videoBitrate := some v, maxStreamingBitrate := some v }

end Jellydown

namespace Jellydown

theorem mem_collapseWS (l : List Char) : ∀ c ∈ collapseWS l, c ∈ l ∨ c = ' ' := by
  induction l with
  | nil => intro c hc; simp [collapseWS] at hc
  | cons a t ih =>
    cases t with
    | nil =>
      intro c hc
      by_cases h : isPySpace a = true
      · simp [collapseWS, h] at hc; exact Or.inr hc
      · simp [collapseWS, h] at hc; exact Or.inl (by simp [hc])
    | cons b t2 =>
      intro c hc
      by_cases h : (isPySpace a && isPySpace b) = true
      · rw [collapseWS, if_pos h] at hc
        rcases ih c hc with h1 | h2
        · exact Or.inl (List.mem_cons_of_mem _ h1)
        · exact Or.inr h2
      · rw [collapseWS, if_neg h] at hc
        rcases List.mem_cons.mp hc with h1 | h2
        · by_cases hws : isPySpace a = true
          · rw [if_pos hws] at h1; exact Or.inr h1
          · rw [if_neg hws] at h1; exact Or.inl (by simp [h1])
        · rcases ih c h2 with h3 | h4
          · exact Or.inl (List.mem_cons_of_mem _ h3)
          · exact Or.inr h4

theorem wsIsSpace_collapseWS (l : List Char) :
    ∀ c ∈ collapseWS l, isPySpace c = true → c = ' ' := by
  induction l with
  | nil => intro c hc; simp [collapseWS] at hc
  | cons a t ih =>
    cases t with
    | nil =>
      intro c hc hws
      by_cases h : isPySpace a = true
      · simp [collapseWS, h] at hc; exact hc
      · simp [collapseWS, h] at hc; rw [hc] at hws; exact absurd hws (by simp [h])
    | cons b t2 =>
      intro c hc hws
      by_cases h : (isPySpace a && isPySpace b) = true
      · rw [collapseWS, if_pos h] at hc; exact ih c hc hws
      · rw [collapseWS, if_neg h] at hc
        rcases List.mem_cons.mp hc with h1 | h2
        · by_cases ha : isPySpace a = true
          · rw [if_pos ha] at h1; exact h1
          · rw [if_neg ha] at h1; rw [h1] at hws; exact absurd hws (by simp [ha])
        · exact ih c h2 hws

theorem collapseWS_head_of_neg (d : Char) (t : List Char) (h : ¬ isPySpace d = true) :
    (collapseWS (d :: t)).head? = some d := by
  cases t with
  | nil => simp [collapseWS, if_neg h]
  | cons e t2 =>
    have hcond : ¬ (isPySpace d && isPySpace e) = true := by
      rw [Bool.and_eq_true]; intro hx; exact h hx.1
    rw [collapseWS, if_neg hcond, if_neg h, List.head?_cons]

theorem chain'_collapseWS (l : List Char) : List.Chain' wsRel (collapseWS l) := by
  induction l with
  | nil => simp [collapseWS]
  | cons a t ih =>
    cases t with
    | nil => by_cases h : isPySpace a = true <;> simp [collapseWS, h]
    | cons b t2 =>
      by_cases h : (isPySpace a && isPySpace b) = true
      · rw [collapseWS, if_pos h]; exact ih
      · rw [collapseWS, if_neg h]
        rw [List.chain'_cons']
        refine ⟨?_, ih⟩
        intro y hy
        rw [Bool.and_eq_true] at h
        by_cases hb : isPySpace b = true
        · have ha : ¬ isPySpace a = true := fun ha => h ⟨ha, hb⟩
          rw [if_neg ha]
          intro hcon
          exact ha hcon.1
        · rw [collapseWS_head_of_neg b t2 hb] at hy
          have hyb : b = y := by simpa using hy
          subst hyb
          intro hcon
          exact hb hcon.2

theorem collapseWS_eq_self (l : List Char)
    (hws : ∀ c ∈ l, isPySpace c = true → c = ' ')
    (hadj : List.Chain' wsRel l) : collapseWS l = l := by
  induction l with
  | nil => rfl
  | cons a t ih =>
    cases t with
    | nil =>
      by_cases h : isPySpace a = true
      · have ha := hws a (by simp) h
        simp [collapseWS, h, ha]
      · simp [collapseWS, h]
    | cons b t2 =>
      have hrel : wsRel a b := (List.chain'_cons.mp hadj).1
      have hcond : ¬ (isPySpace a && isPySpace b) = true := by
        rw [Bool.and_eq_true]; exact hrel
      rw [collapseWS, if_neg hcond]
      have htail : collapseWS (b :: t2) = b :: t2 :=
        ih (fun c hc hx => hws c (List.mem_cons_of_mem _ hc) hx)
          (List.chain'_cons.mp hadj).2
      rw [htail]
      by_cases h : isPySpace a = true
      · rw [if_pos h, hws a (by simp) h]
      · rw [if_neg h]

theorem head?_dropWhile_false (p : Char → Bool) (l : List Char) :
    ∀ c ∈ (l.dropWhile p).head?, p c = false := by
  induction l with
  | nil => simp
  | cons a t ih =>
    by_cases h : p a = true
    · rw [List.dropWhile_cons_of_pos h]; exact ih
    · rw [List.dropWhile_cons_of_neg h]
      intro c hc
      have hca : a = c := by simpa using hc
      subst hca
      exact Bool.eq_false_iff.mpr h

theorem lstripWith_eq_self (p : Char → Bool) (l : List Char)
    (h : ∀ c ∈ l.head?, p c = false) : lstripWith p l = l := by
  cases l with
  | nil => rfl
  | cons a t =>
    have ha := h a (by simp)
    rw [lstripWith, List.dropWhile_cons_of_neg (by simp [ha])]

theorem rstripWith_eq_self (p : Char → Bool) (l : List Char)
    (h : ∀ c ∈ l.getLast?, p c = false) : rstripWith p l = l := by
  have h2 : ∀ c ∈ l.reverse.head?, p c = false := by
    intro c hc; rw [List.head?_reverse] at hc; exact h c hc
  have h3 : l.reverse.dropWhile p = l.reverse := lstripWith_eq_self p l.reverse h2
  rw [rstripWith, h3, List.reverse_reverse]

theorem rstripWith_append_eq (p : Char → Bool) (l : List Char) :
    rstripWith p l ++ (l.reverse.takeWhile p).reverse = l := by
  rw [rstripWith, ← List.reverse_append, List.takeWhile_append_dropWhile,
    List.reverse_reverse]

theorem head?_rstripWith (p : Char → Bool) (l : List Char) (c : Char)
    (h : (rstripWith p l).head? = some c) : l.head? = some c := by
  have hap := rstripWith_append_eq p l
  rw [← hap, List.head?_append, h]
  rfl

theorem getLast?_rstripWith (p : Char → Bool) (l : List Char) :
    ∀ c ∈ (rstripWith p l).getLast?, p c = false := by
  intro c hc
  rw [rstripWith, List.getLast?_reverse] at hc
  exact head?_dropWhile_false p l.reverse c hc

theorem mem_lstripWith (p : Char → Bool) (l : List Char) :
    ∀ c ∈ lstripWith p l, c ∈ l :=
  fun _ hc => (List.dropWhile_sublist p).subset hc

theorem mem_rstripWith (p : Char → Bool) (l : List Char) :
    ∀ c ∈ rstripWith p l, c ∈ l := by
  intro c hc
  rw [rstripWith, List.mem_reverse] at hc
  have h2 := (List.dropWhile_sublist p).subset hc
  rwa [List.mem_reverse] at h2

theorem chain'_lstripWith {R : Char → Char → Prop} (p : Char → Bool) (l : List Char)
    (h : List.Chain' R l) : List.Chain' R (lstripWith p l) := by
  rw [← List.takeWhile_append_dropWhile p l] at h
  exact h.right_of_append

theorem chain'_rstripWith {R : Char → Char → Prop} (p : Char → Bool) (l : List Char)
    (h : List.Chain' R l) : List.Chain' R (rstripWith p l) := by
  have hflip : List.Chain' (flip R) l.reverse := List.chain'_reverse.mpr h
  rw [← List.takeWhile_append_dropWhile p l.reverse] at hflip
  have h2 : List.Chain' (flip R) (l.reverse.dropWhile p) := hflip.right_of_append
  exact List.chain'_reverse.mpr h2

theorem sanitizeChars_spec (l : List Char) :
    (∀ c ∈ sanitizeChars l, isStripped c = false) ∧
    (∀ c ∈ sanitizeChars l, isPySpace c = true → c = ' ') ∧
    List.Chain' wsRel (sanitizeChars l) ∧
    (∀ c ∈ (sanitizeChars l).head?, isPySpace c = false) ∧
    (∀ c ∈ (sanitizeChars l).getLast?, isSpaceDot c = false) := by
  have hmem : ∀ c ∈ sanitizeChars l,
      c ∈ collapseWS (l.filter (fun c => !isStripped c)) := by
    intro c hc
    exact mem_lstripWith _ _ c
      (mem_rstripWith _ _ c (mem_rstripWith _ _ c hc))
  refine ⟨?_, ?_, ?_, ?_, ?_⟩
  · intro c hc
    rcases mem_collapseWS _ c (hmem c hc) with h1 | h2
    · have := List.of_mem_filter h1
      simpa using this
    · subst h2; decide
  · intro c hc
    exact wsIsSpace_collapseWS _ c (hmem c hc)
  · exact chain'_rstripWith _ _
      (chain'_rstripWith _ _ (chain'_lstripWith _ _ (chain'_collapseWS _)))
  · intro c hc
    have h1 := head?_rstripWith isSpaceDot _ c hc
    have h2 := head?_rstripWith isPySpace _ c h1
    exact head?_dropWhile_false isPySpace _ c h2
  · exact getLast?_rstripWith isSpaceDot _

theorem sanitizeChars_eq_self (l : List Char)
    (h1 : ∀ c ∈ l, isStripped c = false)
    (h2 : ∀ c ∈ l, isPySpace c = true → c = ' ')
    (h3 : List.Chain' wsRel l)
    (h4 : ∀ c ∈ l.head?, isPySpace c = false)
    (h5 : ∀ c ∈ l.getLast?, isSpaceDot c = false) :
    sanitizeChars l = l := by
  have hlastws : ∀ c ∈ l.getLast?, isPySpace c = false := by
    intro c hc
    by_contra hx
    have hws : isPySpace c = true := by
      cases hcv : isPySpace c
      · exact absurd hcv hx
      · rfl
    have hcs : c = ' ' := h2 c (List.mem_of_getLast?_eq_some hc) hws
    have := h5 c hc
    rw [hcs] at this
    simp [isSpaceDot] at this
  rw [sanitizeChars,
    List.filter_eq_self.mpr (fun c hc => by simp [h1 c hc]),
    collapseWS_eq_self l h2 h3,
    show lstripWith isPySpace l = l from lstripWith_eq_self _ _ h4,
    rstripWith_eq_self _ _ hlastws,
    rstripWith_eq_self _ _ h5]

theorem sanitizeChars_idem (l : List Char) :
    sanitizeChars (sanitizeChars l) = sanitizeChars l := by
  have h := sanitizeChars_spec l
  exact sanitizeChars_eq_self _ h.1 h.2.1 h.2.2.1 h.2.2.2.1 h.2.2.2.2

/-- C1: with bitrate 0 the strategy is Direct (`true`) for every item;
with a nonzero bitrate, a missing runtime-ticks value, a missing
media-source list, or a first media source without a byte size each force
Transcode (`false`). -/
theorem should_skip_transcode_guards (item : Item) (bitrate : Nat) :
    (bitrate = 0 → should_skip_transcode item bitrate = true) ∧
    (bitrate ≠ 0 → item.runTimeTicks = none →
      should_skip_transcode item bitrate = false) ∧
    (bitrate ≠ 0 → item.mediaSources = none →
      should_skip_transcode item bitrate = false) ∧
    (bitrate ≠ 0 → ∀ src rest, item.mediaSources = some (some src :: rest) →
      src.size = none → should_skip_transcode item bitrate = false) := by
  refine ⟨fun h0 => by simp [should_skip_transcode, h0], ?_, ?_, ?_⟩
  · intro hb ht
    simp only [should_skip_transcode, if_neg hb, ht]
  · intro hb hms
    simp only [should_skip_transcode, if_neg hb, hms, Option.getD_none]
    rcases item.runTimeTicks with _ | t <;> rfl
  · intro hb src rest hms hsz
    simp only [should_skip_transcode, if_neg hb, hms, Option.getD_some]
    rcases item.runTimeTicks with _ | t
    · rfl
    · by_cases ht : t = 0 <;> simp [ht, hsz]

/-- C1 witness: the guard clauses evaluated at concrete inputs. -/
theorem should_skip_transcode_guards_witness :
    should_skip_transcode { runTimeTicks := some 123 } 0 = true ∧
    should_skip_transcode { runTimeTicks := none, mediaSources := some [some { size := some 5 }] } 7 = false ∧
    should_skip_transcode { runTimeTicks := some 123, mediaSources := none } 7 = false ∧
    should_skip_transcode { runTimeTicks := some 123, mediaSources := some [some { size := none }] } 7 = false := by
  refine ⟨(should_skip_transcode_guards _ 0).1 rfl,
    (should_skip_transcode_guards _ 7).2.1 (by decide) rfl,
    (should_skip_transcode_guards _ 7).2.2.1 (by decide) rfl,
    (should_skip_transcode_guards _ 7).2.2.2 (by decide) { size := none } [] rfl rfl⟩

/-- C2 counterexample: a first media source whose `Size` is present but
equal to `0` is treated by the code as missing (Python truthiness), so the
strategy is Transcode even though `0 ≤ expected * 1.05` would demand
Direct under the claimed equivalence. -/
theorem should_skip_transcode_size_zero_counterexample :
    should_skip_transcode
      { runTimeTicks := some 10000000,
        mediaSources := some [some { size := some 0 }] } 8 = false ∧
    ((0 : ℚ) ≤ ((8 : ℚ) / 8) * ((10000000 : ℚ) / 10000000) * (21 / 20)) := by
  exact ⟨rfl, by norm_num⟩

/-- C2 (amended): for a nonzero bitrate and an item carrying runtime ticks
`t` and a first media source of nonzero byte size `s`, the strategy is
Direct exactly when `s ≤ (b/8) * (t/10^7) * 1.05`. -/
theorem should_skip_transcode_size_formula (item : Item) (t s b : Nat)
    (src : MediaSource) (rest : List (Option MediaSource))
    (hb : b ≠ 0) (hs : s ≠ 0)
    (ht : item.runTimeTicks = some t)
    (hms : item.mediaSources = some (some src :: rest))
    (hsz : src.size = some s) :
    should_skip_transcode item b = true ↔
      (s : ℚ) ≤ ((b : ℚ) / 8) * ((t : ℚ) / 10000000) * (21 / 20) := by
  simp only [should_skip_transcode, if_neg hb, hms, Option.getD_some, ht, hsz]
  by_cases ht0 : t = 0
  · subst ht0
    have hs0 : (0 : ℚ) < (s : ℚ) := by
      exact_mod_cast Nat.pos_of_ne_zero hs
    have hrhs : ¬ ((s : ℚ) ≤ ((b : ℚ) / 8) * (((0 : Nat) : ℚ) / 10000000) * (21 / 20)) := by
      push_cast
      intro h
      nlinarith
    simp [hrhs, hs]
  · simp only [if_neg ht0, if_neg hs]
    exact decide_eq_true_iff

/-- C2 witness: the spec's two worked examples, bitrate 4,000,000 bit/s and
runtime 10,000,000,000 ticks; original size 500,000,000 bytes gives
Direct, 700,000,000 bytes gives Transcode. -/
theorem should_skip_transcode_size_formula_witness :
    should_skip_transcode
      { runTimeTicks := some 10000000000,
        mediaSources := some [some { size := some 500000000 }] } 4000000 = true ∧
    should_skip_transcode
      { runTimeTicks := some 10000000000,
        mediaSources := some [some { size := some 700000000 }] } 4000000 = false := by
  constructor
  · exact (should_skip_transcode_size_formula _ 10000000000 500000000 4000000
      { size := some 500000000 } [] (by norm_num) (by norm_num) rfl rfl rfl).mpr
      (by norm_num)
  · have h := (should_skip_transcode_size_formula
      { runTimeTicks := some 10000000000,
        mediaSources := some [some { size := some 700000000 }] }
      10000000000 700000000 4000000
      { size := some 700000000 } [] (by norm_num) (by norm_num) rfl rfl rfl)
    rcases hres : should_skip_transcode
      { runTimeTicks := some 10000000000,
        mediaSources := some [some { size := some 700000000 }] } 4000000 with _ | _
    · rfl
    · exfalso
      have := h.mp hres
      norm_num at this

/-- C4: `sanitize_filename` is idempotent, and its output contains no
character of the set `<>:"/\\|?*` and no ASCII control character (codes
0 through 31), every whitespace character left in it is a single plain
space with no two adjacent (each maximal whitespace run was replaced by
one space), and it ends in neither a space nor a dot. -/
theorem sanitize_filename_idempotent (s : String) :
    sanitize_filename (sanitize_filename s) = sanitize_filename s ∧
    (∀ c ∈ (sanitize_filename s).data, c ∈ stripChars → False) ∧
    (∀ c ∈ (sanitize_filename s).data, c.toNat ≤ 31 → False) ∧
    (∀ c ∈ (sanitize_filename s).data, isPySpace c = true → c = ' ') ∧
    List.Chain' wsRel (sanitize_filename s).data ∧
    (∀ c ∈ (sanitize_filename s).data.getLast?, ¬(c = ' ' ∨ c = '.')) := by
  have hspec := sanitizeChars_spec s.data
  have hdata : (sanitize_filename s).data = sanitizeChars s.data := rfl
  refine ⟨?_, ?_, ?_, ?_, ?_, ?_⟩
  · show String.mk (sanitizeChars (sanitizeChars s.data)) = String.mk (sanitizeChars s.data)
    rw [sanitizeChars_idem]
  · intro c hc hmem
    rw [hdata] at hc
    have := hspec.1 c hc
    rw [isStripped] at this
    simp [hmem] at this
  · intro c hc hle
    rw [hdata] at hc
    have := hspec.1 c hc
    rw [isStripped] at this
    have h31 : (c.toNat ≤ 31) = true := by simpa using hle
    simp [h31] at this
  · intro c hc
    rw [hdata] at hc
    exact hspec.2.1 c hc
  · rw [hdata]
    exact hspec.2.2.1
  · intro c hc hor
    rw [hdata] at hc
    have := hspec.2.2.2.2 c hc
    rcases hor with h1 | h1 <;> rw [h1] at this <;> simp [isSpaceDot] at this

/-- C4 witness: idempotence applied at a concrete string, together with a
direct evaluation of the sanitizer on it. -/
theorem sanitize_filename_idempotent_witness :
    sanitize_filename (sanitize_filename "  a<b:?*  c.. ") = sanitize_filename "  a<b:?*  c.. " ∧
    sanitize_filename "  a<b:?*  c.. " = "ab c" := by
  exact ⟨(sanitize_filename_idempotent "  a<b:?*  c.. ").1, by decide⟩

theorem natCharsAux_digits (fuel : Nat) :
    ∀ (n : Nat), ∀ c ∈ natCharsAux fuel n, ∃ d, d < 10 ∧ c = digitChar d := by
  induction fuel with
  | zero => intro n c hc; simp [natCharsAux] at hc
  | succ f ih =>
    intro n c hc
    rw [natCharsAux] at hc
    by_cases h : n < 10
    · rw [if_pos h] at hc
      have hcn : c = digitChar n := by simpa using hc
      exact ⟨n, h, hcn⟩
    · rw [if_neg h] at hc
      rcases List.mem_append.mp hc with h1 | h2
      · exact ih (n / 10) c h1
      · have hcn : c = digitChar (n % 10) := by simpa using h2
        exact ⟨n % 10, Nat.mod_lt _ (by omega), hcn⟩

theorem pad2_digits (n : Nat) : ∀ c ∈ pad2 n, ∃ d, d < 10 ∧ c = digitChar d := by
  intro c hc
  rw [pad2] at hc
  by_cases h : n < 10
  · rw [if_pos h] at hc
    rcases List.mem_cons.mp hc with h1 | h2
    · exact ⟨0, by omega, by rw [h1]; rfl⟩
    · exact natCharsAux_digits _ _ c h2
  · rw [if_neg h] at hc
    exact natCharsAux_digits _ _ c hc

theorem digitChar_not_ws (d : Nat) (hd : d < 10) : isPySpace (digitChar d) = false := by
  interval_cases d <;> decide

theorem digitChar_not_stripped (d : Nat) (hd : d < 10) :
    isStripped (digitChar d) = false := by
  interval_cases d <;> decide

theorem pad2_not_ws (n : Nat) : ∀ c ∈ pad2 n, isPySpace c = false := by
  intro c hc
  obtain ⟨d, hd, he⟩ := pad2_digits n c hc
  rw [he]
  exact digitChar_not_ws d hd

theorem pad2_not_stripped (n : Nat) : ∀ c ∈ pad2 n, isStripped c = false := by
  intro c hc
  obtain ⟨d, hd, he⟩ := pad2_digits n c hc
  rw [he]
  exact digitChar_not_stripped d hd

theorem chain'_wsRel_of_all (l : List Char) (h : ∀ c ∈ l, isPySpace c = false) :
    List.Chain' wsRel l := by
  induction l with
  | nil => simp
  | cons a t ih =>
    rw [List.chain'_cons']
    refine ⟨?_, ih (fun c hc => h c (List.mem_cons_of_mem _ hc))⟩
    intro y hy hcon
    rw [h a (by simp)] at hcon
    exact Bool.false_ne_true hcon.1

theorem chain'_wsRel_append_left (l1 l2 : List Char)
    (h1 : List.Chain' wsRel l1) (h2 : List.Chain' wsRel l2)
    (hx : ∀ x ∈ l1.getLast?, isPySpace x = false) :
    List.Chain' wsRel (l1 ++ l2) := by
  rw [List.chain'_append]
  refine ⟨h1, h2, ?_⟩
  intro x hxl y hyl hcon
  rw [hx x hxl] at hcon
  exact Bool.false_ne_true hcon.1

theorem chain'_wsRel_append_right (l1 l2 : List Char)
    (h1 : List.Chain' wsRel l1) (h2 : List.Chain' wsRel l2)
    (hy : ∀ y ∈ l2.head?, isPySpace y = false) :
    List.Chain' wsRel (l1 ++ l2) := by
  rw [List.chain'_append]
  refine ⟨h1, h2, ?_⟩
  intro x hxl y hyl hcon
  rw [hy y hyl] at hcon
  exact Bool.false_ne_true hcon.2

theorem last_not_ws_of_sanitized (l : List Char)
    (h2 : ∀ c ∈ l, isPySpace c = true → c = ' ')
    (h5 : ∀ c ∈ l.getLast?, isSpaceDot c = false) :
    ∀ x ∈ l.getLast?, isPySpace x = false := by
  intro x hx
  by_contra hxx
  have hws : isPySpace x = true := by
    cases hv : isPySpace x
    · exact absurd hv hxx
    · rfl
  have hxs : x = ' ' := h2 x (List.mem_of_mem_getLast? hx) hws
  have h5x := h5 x hx
  rw [hxs] at h5x
  simp [isSpaceDot] at h5x

theorem sanitizeChars_append_eq (s mid t : List Char)
    (hsne : s ≠ []) (htne : t ≠ [])
    (hs : sanitizeChars s = s) (ht : sanitizeChars t = t)
    (hmid1 : ∀ c ∈ mid, isStripped c = false)
    (hmid2 : ∀ c ∈ mid, isPySpace c = true → c = ' ')
    (hmid3 : List.Chain' wsRel mid) :
    sanitizeChars (s ++ (mid ++ t)) = s ++ (mid ++ t) := by
  have hsp := sanitizeChars_spec s
  rw [hs] at hsp
  have htp := sanitizeChars_spec t
  rw [ht] at htp
  have hslast : ∀ x ∈ s.getLast?, isPySpace x = false :=
    last_not_ws_of_sanitized s hsp.2.1 hsp.2.2.2.2
  apply sanitizeChars_eq_self
  · intro c hc
    rcases List.mem_append.mp hc with h1 | h2
    · exact hsp.1 c h1
    · rcases List.mem_append.mp h2 with h3 | h4
      · exact hmid1 c h3
      · exact htp.1 c h4
  · intro c hc
    rcases List.mem_append.mp hc with h1 | h2
    · exact hsp.2.1 c h1
    · rcases List.mem_append.mp h2 with h3 | h4
      · exact hmid2 c h3
      · exact htp.2.1 c h4
  · exact chain'_wsRel_append_left s (mid ++ t) hsp.2.2.1
      (chain'_wsRel_append_right mid t hmid3 htp.2.2.1 htp.2.2.2.1) hslast
  · intro c hc
    rcases s with _ | ⟨a, s2⟩
    · exact absurd rfl hsne
    · have hca : a = c := by simpa using hc
      subst hca
      exact hsp.2.2.2.1 a (by simp)
  · intro c hc
    rw [List.getLast?_append, List.getLast?_append] at hc
    rcases hgl : t.getLast? with _ | b
    · exact absurd (List.getLast?_eq_none_iff.mp hgl) htne
    · rw [hgl] at hc
      have hcb : b = c := by simpa using hc
      subst hcb
      exact htp.2.2.2.2 b (by rw [hgl]; rfl)

theorem natChars_ne_nil (n : Nat) : natChars n ≠ [] := by
  rw [natChars, natCharsAux]
  by_cases h : n < 10
  · rw [if_pos h]; simp
  · rw [if_neg h]; simp

theorem pad2_ne_nil (n : Nat) : pad2 n ≠ [] := by
  rw [pad2]
  by_cases h : n < 10
  · rw [if_pos h]; simp
  · rw [if_neg h]; exact natChars_ne_nil n

theorem mid_long_not_stripped (sn ep : Nat) :
    ∀ c ∈ [' ', '-', ' ', 'S'] ++ pad2 sn ++ ['E'] ++ pad2 ep ++ [' ', '-', ' '],
      isStripped c = false := by
  intro c hc
  simp only [List.mem_append] at hc
  rcases hc with ((((h | h) | h) | h) | h)
  · simp only [List.mem_cons, List.not_mem_nil, or_false] at h
    rcases h with h | h | h | h <;> subst h <;> decide
  · exact pad2_not_stripped sn c h
  · simp only [List.mem_cons, List.not_mem_nil, or_false] at h
    subst h; decide
  · exact pad2_not_stripped ep c h
  · simp only [List.mem_cons, List.not_mem_nil, or_false] at h
    rcases h with h | h | h <;> subst h <;> decide

theorem mid_long_ws_space (sn ep : Nat) :
    ∀ c ∈ [' ', '-', ' ', 'S'] ++ pad2 sn ++ ['E'] ++ pad2 ep ++ [' ', '-', ' '],
      isPySpace c = true → c = ' ' := by
  intro c hc hws
  simp only [List.mem_append] at hc
  rcases hc with ((((h | h) | h) | h) | h)
  · simp only [List.mem_cons, List.not_mem_nil, or_false] at h
    rcases h with h | h | h | h <;> subst h
    · rfl
    · exact absurd hws (by decide)
    · rfl
    · exact absurd hws (by decide)
  · rw [pad2_not_ws sn c h] at hws; exact absurd hws (by decide)
  · simp only [List.mem_cons, List.not_mem_nil, or_false] at h
    subst h; exact absurd hws (by decide)
  · rw [pad2_not_ws ep c h] at hws; exact absurd hws (by decide)
  · simp only [List.mem_cons, List.not_mem_nil, or_false] at h
    rcases h with h | h | h <;> subst h
    · rfl
    · exact absurd hws (by decide)
    · rfl

theorem pad2_getLast_not_ws (n : Nat) :
    ∀ x ∈ (pad2 n).getLast?, isPySpace x = false :=
  fun x hx => pad2_not_ws n x (List.mem_of_mem_getLast? hx)

theorem pad2_head_not_ws (n : Nat) :
    ∀ y ∈ (pad2 n).head?, isPySpace y = false :=
  fun y hy => pad2_not_ws n y (List.mem_of_mem_head? hy)

theorem chain_wsRel_seg1 : List.Chain' wsRel [' ', '-', ' ', 'S'] :=
  List.chain'_cons.mpr ⟨by decide, List.chain'_cons.mpr ⟨by decide,
    List.chain'_cons.mpr ⟨by decide, List.chain'_singleton _⟩⟩⟩

theorem chain_wsRel_seg2 : List.Chain' wsRel [' ', '-', ' '] :=
  List.chain'_cons.mpr ⟨by decide, List.chain'_cons.mpr ⟨by decide,
    List.chain'_singleton _⟩⟩

theorem mid_long_chain (sn ep : Nat) :
    List.Chain' wsRel
      ([' ', '-', ' ', 'S'] ++ pad2 sn ++ ['E'] ++ pad2 ep ++ [' ', '-', ' ']) := by
  have c1 : List.Chain' wsRel ([' ', '-', ' ', 'S'] ++ pad2 sn) :=
    chain'_wsRel_append_left _ _ chain_wsRel_seg1
      (chain'_wsRel_of_all _ (pad2_not_ws sn))
      (by intro x hx
          have h := Option.mem_def.mp hx
          injection h with h2
          subst h2
          decide)
  have c2 : List.Chain' wsRel ([' ', '-', ' ', 'S'] ++ pad2 sn ++ ['E']) :=
    chain'_wsRel_append_right _ _ c1 (List.chain'_singleton _)
      (by intro y hy
          have h := Option.mem_def.mp hy
          injection h with h2
          subst h2
          decide)
  have c3 : List.Chain' wsRel ([' ', '-', ' ', 'S'] ++ pad2 sn ++ ['E'] ++ pad2 ep) :=
    chain'_wsRel_append_right _ _ c2
      (chain'_wsRel_of_all _ (pad2_not_ws ep)) (pad2_head_not_ws ep)
  apply chain'_wsRel_append_left _ _ c3 chain_wsRel_seg2
  intro x hx
  rw [List.getLast?_append] at hx
  rcases hgl : (pad2 ep).getLast? with _ | d
  · exact absurd (List.getLast?_eq_none_iff.mp hgl) (pad2_ne_nil ep)
  · rw [hgl] at hx
    have hxd : d = x := by simpa using hx
    subst hxd
    exact pad2_getLast_not_ws ep d (by simp [hgl])

theorem string_data_ne_nil {s : String} (h : s ≠ "") : s.data ≠ [] := by
  intro hd
  exact h (String.ext (by rw [hd]))

/-- C8 counterexample: the code sanitizes the whole formatted base, so for
a series name containing a stripped character (here `"a/b"`) the base is
not literally `"<series> - S01E05 - <title>"`. -/
theorem episode_filename_exact_counterexample :
    episode_filename
      { seriesName := some "a/b", parentIndexNumber := some 1,
        indexNumber := some 5, name := some "Pilot" } ".mp4"
      = "ab - S01E05 - Pilot.mp4" ∧
    ("ab - S01E05 - Pilot.mp4" : String) ≠ "a/b - S01E05 - Pilot" ++ ".mp4" := by
  exact ⟨by decide, by decide⟩

set_option maxHeartbeats 1000000 in
/-- C8 (amended): for an episode whose (non-empty) series name and title
are already sanitized — `sanitize_filename` fixes them — the base before
the extension is exactly `"<series> - S<season:02d>E<episode:02d> - <title>"`
when both indices are present, and `"<series> - <title>"` when the season
or episode index is absent. -/
theorem episode_filename_format (item : Item) (series title : String) (sn ep : Nat)
    (hser : item.seriesName = some series) (hsne : series ≠ "")
    (hcs : sanitize_filename series = series)
    (hname : item.name = some title) (htne : title ≠ "")
    (hct : sanitize_filename title = title) :
    (item.parentIndexNumber = some sn → item.indexNumber = some ep →
      episode_filename item ".mp4" =
        series ++ " - S" ++ pad2s sn ++ "E" ++ pad2s ep ++ " - " ++ title ++ ".mp4") ∧
    ((item.parentIndexNumber = none ∨ item.indexNumber = none) →
      episode_filename item ".mp4" = series ++ " - " ++ title ++ ".mp4") := by
  have hcs2 : sanitizeChars series.data = series.data := congrArg String.data hcs
  have hct2 : sanitizeChars title.data = title.data := congrArg String.data hct
  have hsne2 : series.data ≠ [] := string_data_ne_nil hsne
  have htne2 : title.data ≠ [] := string_data_ne_nil htne
  have hA : (" - S" : String).data = [' ', '-', ' ', 'S'] := rfl
  have hC : (" - " : String).data = [' ', '-', ' '] := rfl
  have hD : ∀ n, (pad2s n).data = pad2 n := fun _ => rfl
  constructor
  · intro hsn hep
    simp only [episode_filename, hser, hname, hsn, hep, orDefault]
    rw [if_neg hsne, if_neg htne]
    congr 1
    have hlist : sanitizeChars (series.data ++
        (([' ', '-', ' ', 'S'] ++ pad2 sn ++ ['E'] ++ pad2 ep ++ [' ', '-', ' ']) ++
          title.data)) =
        series.data ++
        (([' ', '-', ' ', 'S'] ++ pad2 sn ++ ['E'] ++ pad2 ep ++ [' ', '-', ' ']) ++
          title.data) :=
      sanitizeChars_append_eq _ _ _ hsne2 htne2 hcs2 hct2
        (mid_long_not_stripped sn ep) (mid_long_ws_space sn ep) (mid_long_chain sn ep)
    have hbase : (series ++ " - S" ++ pad2s sn ++ "E" ++ pad2s ep ++ " - " ++ title).data =
        series.data ++
        (([' ', '-', ' ', 'S'] ++ pad2 sn ++ ['E'] ++ pad2 ep ++ [' ', '-', ' ']) ++
          title.data) := by
      simp [String.data_append, hA, hC, hD]
    apply String.ext
    have hd : (sanitize_filename
          (series ++ " - S" ++ pad2s sn ++ "E" ++ pad2s ep ++ " - " ++ title)).data
        = sanitizeChars
          (series ++ " - S" ++ pad2s sn ++ "E" ++ pad2s ep ++ " - " ++ title).data := rfl
    rw [hd, hbase, hlist]
  · intro hor
    have hshort : sanitize_filename (series ++ " - " ++ title) = series ++ " - " ++ title := by
      have hlist : sanitizeChars (series.data ++ ([' ', '-', ' '] ++ title.data)) =
          series.data ++ ([' ', '-', ' '] ++ title.data) :=
        sanitizeChars_append_eq _ _ _ hsne2 htne2 hcs2 hct2
          (by
            intro c hc
            simp only [List.mem_cons, List.not_mem_nil, or_false] at hc
            rcases hc with h | h | h <;> subst h <;> decide)
          (by
            intro c hc hws
            simp only [List.mem_cons, List.not_mem_nil, or_false] at hc
            rcases hc with h | h | h <;> subst h
            · rfl
            · exact absurd hws (by decide)
            · rfl)
          chain_wsRel_seg2
      have hbase : (series ++ " - " ++ title).data =
          series.data ++ ([' ', '-', ' '] ++ title.data) := by
        simp [String.data_append, hC]
      apply String.ext
      have hd : (sanitize_filename (series ++ " - " ++ title)).data
          = sanitizeChars (series ++ " - " ++ title).data := rfl
      rw [hd, hbase, hlist]
    rcases hor with h | h
    · rcases hx : item.indexNumber with _ | ep2 <;>
        · simp only [episode_filename, hser, hname, h, hx, orDefault]
          rw [if_neg hsne, if_neg htne]
          congr 1
    · rcases hx : item.parentIndexNumber with _ | sn2 <;>
        · simp only [episode_filename, hser, hname, h, hx, orDefault]
          rw [if_neg hsne, if_neg htne]
          congr 1

/-- C8 witness: the spec's worked example (`"Show"`, season 1, episode 5,
`"Pilot"`) and its season-absent variant, via the amended theorem. -/
theorem episode_filename_format_witness :
    episode_filename
      { seriesName := some "Show", parentIndexNumber := some 1,
        indexNumber := some 5, name := some "Pilot" } ".mp4"
      = "Show - S01E05 - Pilot.mp4" ∧
    episode_filename { seriesName := some "Show", name := some "Pilot" } ".mp4"
      = "Show - Pilot.mp4" := by
  constructor
  · have h := (episode_filename_format
      { seriesName := some "Show", parentIndexNumber := some 1,
        indexNumber := some 5, name := some "Pilot" }
      "Show" "Pilot" 1 5 rfl (by decide) (by decide) rfl (by decide) (by decide)).1
      rfl rfl
    rw [h]
    decide
  · have h := (episode_filename_format
      { seriesName := some "Show", name := some "Pilot" }
      "Show" "Pilot" 0 0 rfl (by decide) (by decide) rfl (by decide) (by decide)).2
      (Or.inl rfl)
    rw [h]
    decide

set_option maxRecDepth 10000 in
/-- C3 counterexample: `build_stream_url` is not injective.  A trailing
slash on the server URL is stripped, and a configuration that omits a key
collides with one naming the default, so distinct argument tuples can
produce byte-identical URLs. -/
theorem build_stream_url_not_injective :
    build_stream_url "http://x" "t" "i" {} none =
      build_stream_url "http://x/" "t" "i" {} none ∧
    ("http://x" : String) ≠ "http://x/" ∧
    build_stream_url "http://x" "t" "i" {} none =
      build_stream_url "http://x" "t" "i" { videoCodec := some "h264" } none ∧
    ({} : Config) ≠ { videoCodec := some "h264" } := by
  exact ⟨by decide, by decide, by decide, by decide⟩

/-- C3 (amended): `build_stream_url` is a pure deterministic function —
equal argument tuples give byte-identical URLs — the URL splits into a
prefix independent of the configuration plus the encoded query, and
changing any single configuration field replaces exactly the
corresponding entry of the query-parameter list, leaving every other
parameter and the prefix unchanged.  Injectivity fails (see the
counterexample). -/
theorem build_stream_url_deterministic_local
    (base api_key item_id : String) (cfg : Config) (msid : Option String) :
    (∀ base2 key2 item2 cfg2 msid2,
      base = base2 → api_key = key2 → item_id = item2 → cfg = cfg2 → msid = msid2 →
      build_stream_url base api_key item_id cfg msid =
        build_stream_url base2 key2 item2 cfg2 msid2) ∧
    (build_stream_url base api_key item_id cfg msid =
      rstripSlash base ++ "/Videos/" ++ item_id ++ "/stream.mp4?" ++
        urlencode (stream_params api_key cfg msid)) ∧
    (∀ v, stream_params api_key { cfg with videoCodec := some v } msid =
      (stream_params api_key cfg msid).set 2 ("VideoCodec", v)) ∧
    (∀ v, stream_params api_key { cfg with audioCodec := some v } msid =
      (stream_params api_key cfg msid).set 3 ("AudioCodec", v)) ∧
    (∀ v, stream_params api_key { cfg with videoBitrate := some v } msid =
      (stream_params api_key cfg msid).set 4 ("VideoBitrate", toString v)) ∧
    (∀ v, stream_params api_key { cfg with maxStreamingBitrate := some v } msid =
      (stream_params api_key cfg msid).set 5 ("MaxStreamingBitrate", toString v)) ∧
    (∀ v, stream_params api_key { cfg with audioBitrate := some v } msid =
      (stream_params api_key cfg msid).set 6 ("AudioBitrate", toString v)) ∧
    (∀ v, stream_params api_key { cfg with maxAudioChannels := some v } msid =
      (stream_params api_key cfg msid).set 7 ("MaxAudioChannels", toString v)) ∧
    (∀ v, stream_params api_key { cfg with subtitleMethod := some v } msid =
      (stream_params api_key cfg msid).set 8 ("SubtitleMethod", v)) := by
  refine ⟨?_, rfl, ?_, ?_, ?_, ?_, ?_, ?_, ?_⟩
  · intro b2 k2 i2 c2 m2 h1 h2 h3 h4 h5
    subst h1; subst h2; subst h3; subst h4; subst h5
    rfl
  all_goals
    intro v
    rcases msid with _ | m
    · rfl
    · by_cases hm : m = ""
      · simp only [stream_params, if_pos hm]
        rfl
      · simp only [stream_params, if_neg hm]
        rfl

set_option maxRecDepth 10000 in
/-- C3 witness: determinism and the VideoCodec locality applied at
concrete arguments, plus a full evaluation of one URL. -/
theorem build_stream_url_deterministic_local_witness :
    build_stream_url "http://s" "tok" "id" {} none =
      build_stream_url "http://s" "tok" "id" {} none ∧
    stream_params "tok" { videoCodec := some "hevc" } none =
      (stream_params "tok" ({} : Config) none).set 2 ("VideoCodec", "hevc") ∧
    build_stream_url "http://s" "tok" "id" {} none =
      "http://s/Videos/id/stream.mp4?api_key=tok&container=mp4&VideoCodec=h264&AudioCodec=aac&VideoBitrate=4000000&MaxStreamingBitrate=4000000&AudioBitrate=128000&MaxAudioChannels=2&SubtitleMethod=Encode&allowVideoStreamCopy=true&allowAudioStreamCopy=true" := by
  refine ⟨(build_stream_url_deterministic_local "http://s" "tok" "id" {} none).1
      "http://s" "tok" "id" {} none rfl rfl rfl rfl rfl,
    (build_stream_url_deterministic_local "http://s" "tok" "id" ({} : Config) none).2.2.1 "hevc",
    by decide⟩

/-- C5 counterexample: saving a configuration that omits recognized keys
and loading it back yields the defaults for the omitted keys, not the
saved mapping. -/
theorem load_after_save_omitted_counterexample :
    load_config (save_config {}) ≠ ({} : Config) := by decide

/-- C5 (amended): loading after saving returns the saved configuration
exactly when every recognized key is present in it; omitted keys come
back overlaid with their built-in defaults. -/
theorem load_after_save (cfg : Config)
    (h1 : cfg.videoCodec.isSome = true) (h2 : cfg.audioCodec.isSome = true)
    (h3 : cfg.videoBitrate.isSome = true) (h4 : cfg.maxStreamingBitrate.isSome = true)
    (h5 : cfg.audioBitrate.isSome = true) (h6 : cfg.maxAudioChannels.isSome = true)
    (h7 : cfg.subtitleMethod.isSome = true) :
    load_config (save_config cfg) = cfg := by
  have hor : ∀ {α : Type} (o : Option α) (d : α), o.isSome = true → o.or (some d) = o := by
    intro α o d h
    cases o
    · simp at h
    · rfl
  show overlay defaultConfig cfg = cfg
  rcases cfg with ⟨f1, f2, f3, f4, f5, f6, f7⟩
  simp only [overlay, defaultConfig]
  rw [hor f1 _ h1, hor f2 _ h2, hor f3 _ h3, hor f4 _ h4, hor f5 _ h5,
    hor f6 _ h6, hor f7 _ h7]

/-- C5 witness: the round trip applied to a complete configuration. -/
theorem load_after_save_witness :
    load_config (save_config defaultConfig) = defaultConfig :=
  load_after_save defaultConfig (by decide) (by decide) (by decide) (by decide)
    (by decide) (by decide) (by decide)

/-- C6: `load_config` is total over every on-disk state — missing,
unparsable (including empty), or non-mapping content all fall back to the
defaults, a parsed mapping is overlaid on the defaults — and the result
always carries a value for every recognized key. -/
theorem load_config_never_fails (st : DiskState) :
    load_config st = overlay defaultConfig (diskValues st) ∧
    (load_config st).videoCodec ≠ none ∧ (load_config st).audioCodec ≠ none ∧
    (load_config st).videoBitrate ≠ none ∧
    (load_config st).maxStreamingBitrate ≠ none ∧
    (load_config st).audioBitrate ≠ none ∧
    (load_config st).maxAudioChannels ≠ none ∧
    (load_config st).subtitleMethod ≠ none := by
  have hne : ∀ {α : Type} (o : Option α) (d : α), o.or (some d) ≠ none := by
    intro α o d
    cases o <;> simp
  cases st with
  | missing =>
    exact ⟨rfl, by decide, by decide, by decide, by decide, by decide, by decide,
      by decide⟩
  | malformed =>
    exact ⟨rfl, by decide, by decide, by decide, by decide, by decide, by decide,
      by decide⟩
  | notDict =>
    exact ⟨rfl, by decide, by decide, by decide, by decide, by decide, by decide,
      by decide⟩
  | dict d =>
    exact ⟨rfl, hne _ _, hne _ _, hne _ _, hne _ _, hne _ _, hne _ _, hne _ _⟩

/-- C6 witness: the fallback behaviour evaluated at a corrupt file. -/
theorem load_config_never_fails_witness :
    load_config DiskState.malformed =
      overlay defaultConfig (diskValues DiskState.malformed) ∧
    load_config DiskState.malformed = defaultConfig :=
  ⟨(load_config_never_fails DiskState.malformed).1, by decide⟩

/-- C7: with 60 options and page size 25 the picker has 3 pages; from
page 1 the commands `n`, `n`, `p` leave it on page 2 (1-indexed; 0-based
page 1), which displays the 0-based window `[25, 50)`, i.e. items 26–50;
entering 30 returns the value of the option at 0-based index 29 from any
page where it is visible; and `n` on the last page and `p` on the first
page stay put. -/
theorem pick_pagination {α : Type} (opts : List (PickOption α))
    (h60 : opts.length = 60) :
    pagesOf opts.length 25 = 3 ∧
    pick_run opts 25 0 [Cmd.n, Cmd.n, Cmd.p] = StepResult.again 1 ∧
    pageStart 25 1 = 25 ∧ pageEnd opts.length 25 1 = 50 ∧
    (∀ page, pageStart 25 page ≤ 29 ∧ 29 < pageEnd opts.length 25 page →
      ∃ o, opts[29]? = some o ∧
        pick_step opts 25 page (Cmd.num 30) = StepResult.select o.value) ∧
    pick_step opts 25 2 Cmd.n = StepResult.again 2 ∧
    pick_step opts 25 0 Cmd.p = StepResult.again 0 := by
  have hpages : pagesOf opts.length 25 = 3 := by rw [h60]; rfl
  have hb : 29 < opts.length := by rw [h60]; norm_num
  refine ⟨hpages, ?_, rfl, by rw [h60]; rfl, ?_, ?_, rfl⟩
  · simp [pick_run, pick_step, hpages]
  · intro page hpage
    refine ⟨opts.get ⟨29, hb⟩, ?_, ?_⟩
    · rw [List.getElem?_eq_getElem hb]
      simp [List.get_eq_getElem]
    · have hcond : 1 ≤ 30 ∧ 30 - 1 < opts.length := ⟨by norm_num, hb⟩
      simp only [pick_step]
      rw [dif_pos hcond]
  · simp [pick_step, hpages]

/-- C7 witness: the pagination facts evaluated on a concrete list of 60
options. -/
theorem pick_pagination_witness :
    pick_run ((List.range 60).map (fun i => PickOption.mk "" i)) 25 0
      [Cmd.n, Cmd.n, Cmd.p] = StepResult.again 1 ∧
    pick_step ((List.range 60).map (fun i => PickOption.mk "" i)) 25 1
      (Cmd.num 30) = StepResult.select 29 := by
  have h60 : ((List.range 60).map (fun i => PickOption.mk "" i)).length = 60 := by
    simp
  have h := pick_pagination ((List.range 60).map (fun i => PickOption.mk "" i)) h60
  refine ⟨h.2.1, ?_⟩
  obtain ⟨o, ho1, ho2⟩ := h.2.2.2.2.1 1 ⟨by decide, by rw [h60]; decide⟩
  have hov : ((List.range 60).map (fun i => PickOption.mk "" i))[29]? =
      some (PickOption.mk "" 29) := by decide
  rw [hov] at ho1
  have hoo : PickOption.mk "" 29 = o := Option.some.inj ho1
  rw [ho2, ← hoo]

/-- C9: a numeric command selects by 1-based index against the full
options list, not the currently displayed page: for any non-empty options
list, any page-size and any current page (visible or not), entering `k`
with `1 ≤ k ≤ length` returns the value of option `k`. -/
theorem pick_numeric_any_page {α : Type} (opts : List (PickOption α))
    (ps page k : Nat) (h1 : 1 ≤ k) (h2 : k ≤ opts.length) :
    ∃ o, opts[k - 1]? = some o ∧
      pick_step opts ps page (Cmd.num k) = StepResult.select o.value := by
  have hb : k - 1 < opts.length := by omega
  refine ⟨opts.get ⟨k - 1, hb⟩, ?_, ?_⟩
  · rw [List.getElem?_eq_getElem hb]
    simp [List.get_eq_getElem]
  · simp only [pick_step]
    rw [dif_pos ⟨h1, hb⟩]

/-- C9 witness: selecting option 2 from a page on which it is not
displayed (page 5 of a 3-element list). -/
theorem pick_numeric_any_page_witness :
    pick_step [PickOption.mk "a" 0, PickOption.mk "b" 1, PickOption.mk "c" 2]
      25 5 (Cmd.num 2) = StepResult.select 1 := by
  obtain ⟨o, ho1, ho2⟩ := pick_numeric_any_page
    [PickOption.mk "a" 0, PickOption.mk "b" 1, PickOption.mk "c" 2]
    25 5 2 (by norm_num) (by norm_num)
  have hov : [PickOption.mk "a" 0, PickOption.mk "b" 1, PickOption.mk "c" 2][2 - 1]? =
      some (PickOption.mk "b" 1) := by decide
  rw [hov] at ho1
  have hoo : PickOption.mk "b" 1 = o := Option.some.inj ho1
  rw [ho2, ← hoo]

/-- C10: every completion of the settings menu's video-bitrate edit sets
`MaxStreamingBitrate` to the same value as `VideoBitrate`, for every raw
input line; the stored value is exactly the prompted integer, and the 0
sentinel is stored as 0. -/
theorem settings_bitrate_sync (cfg : Config) (raw : String) :
    (settings_edit_video_bitrate cfg raw).maxStreamingBitrate =
      (settings_edit_video_bitrate cfg raw).videoBitrate ∧
    (settings_edit_video_bitrate cfg raw).videoBitrate =
      some (prompt_int raw 4000000 0 100000000) ∧
    (settings_edit_video_bitrate cfg "0").videoBitrate = some 0 := by
  refine ⟨rfl, rfl, ?_⟩
  show some (prompt_int "0" 4000000 0 100000000) = some 0
  decide

end Jellydown
